import Mathlib

/-!
Verification of the structured-logging subsystem of the
`nodets-prisma-swagger-boilerplate` repository.

The development embeds, as executable Lean definitions:

* the redaction engine configured in `src/v1/utils/logging/logger.ts`
  (the path list handed to the logger's `redact` option, applied with the
  documented semantics of the underlying redactor: exact dot-notation paths,
  and wildcard segments that each match exactly one key level);
* the environment-to-configuration resolver of `src/v1/config/logging.ts`
  (`sanitizeLogLevel`, `getLoggingConfig`, JavaScript `parseInt` and the
  falsy-or-default idiom `x || d`);
* the sink factory of `logger.ts` (transport-string parsing, per-stream
  level thresholds with the numeric severity scale trace=10 .. fatal=60,
  silent accepting nothing);
* the retention pruner `pruneOldLogs` of `logger.ts`;
* the console and file stream `write` functions of `logger.ts`, together
  with a JSON parser and a 2-space-indented JSON renderer standing for
  `JSON.parse` / `JSON.stringify(x, null, 2)`.

JavaScript values that may be `undefined` are modelled with `Option`;
`NaN` results of `parseInt` are modelled as `none`; operations that the
source wraps in try/catch are total functions returning the fallback value
on the failing branches.
-/

set_option maxRecDepth 10000
set_option linter.unnecessarySeqFocus false

namespace Spec2Proof

/-- JSON-like values flowing through log records.  Objects are flattened
key/value chains (`objCons key val rest`), matching the enumerable
own-property view that redaction and formatting operate on; arrays are
element chains.  None of the configured redaction paths contains a numeric
segment, so redaction never descends into arrays (faithful to the
property-chain lookup the redactor performs).  Number literals are
represented by their integer part; no verified claim depends on numeric
precision. -/
inductive JVal where
  | str (s : String)
  | num (n : Int)
  | bool (b : Bool)
  | null
  | objNil
  | objCons (key : String) (val : JVal) (rest : JVal)
  | arrNil
  | arrCons (head : JVal) (rest : JVal)
  deriving DecidableEq

/-- Own-property lookup on an object chain (`undefined` is `none`). -/
def lookupField : JVal → String → Option JVal
  | JVal.objCons k v rest, key => if k = key then some v else lookupField rest key
  | _, _ => none

/-- Property assignment `o[k] = v`: overwrites an existing key in place
(JavaScript keeps the original insertion position) or appends a new one. -/
def insertField : JVal → String → JVal → JVal
  | JVal.objCons k v rest, key, w =>
      if k = key then JVal.objCons k w rest
      else JVal.objCons k v (insertField rest key w)
  | JVal.objNil, key, w => JVal.objCons key w JVal.objNil
  | o, _, _ => o

/-- Value found by following a chain of keys from the root. -/
def getPath : JVal → List String → Option JVal
  | v, [] => some v
  | v, k :: ks =>
      match lookupField v k with
      | some w => getPath w ks
      | none => none

/-- One segment of a redaction path: a literal key, or the wildcard `*`
which matches any single key at its level. -/
inductive Seg where
  | key (k : String)
  | wild
  deriving DecidableEq

/-- The censor value configured in `logger.ts` (`censor: '[REDACTED]'`). -/
def censor : JVal := JVal.str "[REDACTED]"

/-- Applies one redaction path to a value, with the redactor's semantics:
walk own properties; a terminal segment replaces the matched value with
`censor`; a wildcard segment matches exactly one key level.  Non-object
values (including values already censored) are left untouched. -/
def redactPath : List Seg → JVal → JVal
  | [Seg.key kp], JVal.objCons k v rest =>
      JVal.objCons k (if k = kp then censor else v) (redactPath [Seg.key kp] rest)
  | [Seg.wild], JVal.objCons k _ rest =>
      JVal.objCons k censor (redactPath [Seg.wild] rest)
  | Seg.key kp :: s :: ss, JVal.objCons k v rest =>
      JVal.objCons k (if k = kp then redactPath (s :: ss) v else v)
        (redactPath (Seg.key kp :: s :: ss) rest)
  | Seg.wild :: s :: ss, JVal.objCons k v rest =>
      JVal.objCons k (redactPath (s :: ss) v) (redactPath (Seg.wild :: s :: ss) rest)
  | _, v => v

/-- The action a path performs on the value of one field named `k`. -/
def headAct (p : List Seg) (k : String) (v : JVal) : JVal :=
  match p with
  | [] => v
  | [Seg.key kp] => if k = kp then censor else v
  | [Seg.wild] => censor
  | Seg.key kp :: s :: ss => if k = kp then redactPath (s :: ss) v else v
  | Seg.wild :: s :: ss => redactPath (s :: ss) v

/-- Applying a list of redaction paths in order (the redactor precompiles
the configured path array and applies every path). -/
def redact (paths : List (List Seg)) (v : JVal) : JVal :=
  paths.foldl (fun acc p => redactPath p acc) v

/-- A one-segment path `a`. -/
def kp1 (a : String) : List Seg := [Seg.key a]

/-- A two-segment path `a.b`. -/
def kp2 (a b : String) : List Seg := [Seg.key a, Seg.key b]

/-- A three-segment path `a.b.c` (also covers the bracket form
`a.b["c"]`). -/
def kp3 (a b c : String) : List Seg := [Seg.key a, Seg.key b, Seg.key c]

/-- A leading-wildcard path `*.b`: key `b` directly under any single
top-level key. -/
def wp (b : String) : List Seg := [Seg.wild, Seg.key b]

/-- The redaction path list configured by `createLogger` in
`src/v1/utils/logging/logger.ts` when `config.enableRedaction` is set,
in source order. -/
def redactionPaths : List (List Seg) :=
  [ kp3 "req" "headers" "authorization",
    kp3 "req" "headers" "cookie",
    kp3 "res" "headers" "set-cookie",
    kp2 "user" "password",
    kp2 "user" "token",
    kp2 "user" "apiKey",
    kp2 "user" "email",
    kp2 "user" "phone",
    kp2 "user" "phoneNumber",
    kp2 "data" "password",
    kp2 "data" "token",
    kp2 "data" "apiKey",
    kp2 "data" "api_key",
    kp2 "data" "secret",
    kp2 "data" "email",
    kp2 "data" "phone",
    kp2 "data" "phoneNumber",
    kp2 "data" "cvv",
    kp2 "data" "card",
    kp2 "data" "cardNumber",
    kp2 "data" "card_number",
    kp2 "data" "bank",
    kp2 "data" "account",
    kp2 "context" "password",
    kp2 "context" "token",
    kp2 "context" "apiKey",
    kp2 "context" "email",
    kp2 "context" "phone",
    kp2 "context" "phoneNumber",
    kp3 "req" "body" "password",
    kp3 "req" "body" "token",
    kp3 "req" "body" "apiKey",
    kp3 "req" "body" "cvv",
    kp3 "req" "body" "card",
    kp3 "req" "body" "cardNumber",
    kp3 "req" "query" "token",
    kp3 "req" "query" "apiKey",
    kp3 "req" "params" "token",
    kp1 "email",
    kp1 "password",
    kp1 "token",
    kp1 "jwt",
    kp1 "session_jwt",
    kp1 "apiKey",
    kp1 "userId",
    kp1 "user_id",
    kp1 "credentialId",
    kp1 "credential_id",
    kp2 "context" "methodId",
    kp2 "context" "method_id",
    kp2 "context" "otp",
    kp2 "context" "code",
    kp2 "context" "userId",
    kp2 "context" "user_id",
    kp2 "context" "credentialId",
    kp2 "context" "credential_id",
    wp "email",
    wp "password",
    wp "token",
    wp "jwt",
    wp "apiKey",
    wp "api_key",
    wp "secret",
    wp "cvv",
    wp "cardNumber",
    wp "card_number",
    wp "authorization",
    wp "sessionJwt",
    wp "session_jwt",
    wp "accessToken",
    wp "access_token",
    wp "refreshToken",
    wp "refresh_token",
    wp "privateKey",
    wp "private_key",
    wp "secretKey",
    wp "secret_key",
    wp "methodId",
    wp "method_id",
    wp "userId",
    wp "user_id",
    wp "credentialId",
    wp "credential_id" ]

/-- Redaction with the configured path list, as the logger applies it to
every record before a sink formats it. -/
def redactAll (v : JVal) : JVal := redact redactionPaths v

/-- JavaScript `x || d` for an optional string: `undefined` and the empty
string are falsy and select the default. -/
def jsOrString (v : Option String) (d : String) : String :=
  match v with
  | none => d
  | some s => if s = "" then d else s

/-- The `ALLOWED_LOG_LEVELS` set of `src/v1/config/logging.ts`. -/
def allowedLogLevels : List String :=
  ["fatal", "error", "warn", "info", "debug", "trace", "silent"]

/-- ASCII lower-casing of one character (`toLowerCase` on the ASCII
level names and overrides the resolver handles). -/
def toLowerChar (c : Char) : Char :=
  if 'A' ≤ c ∧ c ≤ 'Z' then Char.ofNat (c.toNat + 32) else c

/-- `s.trim()`: strip leading and trailing whitespace. -/
def jsTrim (s : String) : String :=
  String.mk (((s.data.dropWhile (fun c => c.isWhitespace)).reverse.dropWhile
    (fun c => c.isWhitespace)).reverse)

/-- `String(raw || "").trim().toLowerCase()`. -/
def normalizeLevel (s : String) : String :=
  String.mk ((jsTrim s).data.map toLowerChar)

/-- `sanitizeLogLevel` of `src/v1/config/logging.ts`: keep the normalized
override only when it names an allowed level, else use the fallback. -/
def sanitizeLogLevel (raw : Option String) (fallback : String) : String :=
  let level := normalizeLevel (jsOrString raw "")
  if level ∈ allowedLogLevels then level else fallback

/-- Value of a hexadecimal digit character. -/
def hexDigitVal (c : Char) : Option Nat :=
  if '0' ≤ c ∧ c ≤ '9' then some (c.toNat - 48)
  else if 'a' ≤ c ∧ c ≤ 'f' then some (c.toNat - 87)
  else if 'A' ≤ c ∧ c ≤ 'F' then some (c.toNat - 55)
  else none

/-- Maximal run of digits in the given base; `none` when no digit at all
was consumed (`parseInt` yields `NaN` in that case). -/
def parseDigitRun (base : Nat) : List Char → Nat → Bool → Option Nat
  | [], acc, seen => if seen then some acc else none
  | c :: rest, acc, seen =>
      match hexDigitVal c with
      | some d =>
          if d < base then parseDigitRun base rest (acc * base + d) true
          else if seen then some acc else none
      | none => if seen then some acc else none

/-- JavaScript `parseInt(s)` with no radix argument: skip leading
whitespace, read one optional sign, auto-detect a `0x`/`0X` prefixed
hexadecimal literal, then take the maximal digit run; `NaN` (modelled as
`none`) when no digit is consumed. -/
def jsParseInt (s : String) : Option Int :=
  let cs := s.data.dropWhile (fun c => c.isWhitespace)
  let sign : Int :=
    match cs with
    | c :: _ => if c = '-' then -1 else 1
    | [] => 1
  let cs2 :=
    match cs with
    | c :: rest => if c = '-' ∨ c = '+' then rest else cs
    | [] => []
  let run :=
    match cs2 with
    | c0 :: c1 :: rest =>
        if c0 = '0' ∧ (c1 = 'x' ∨ c1 = 'X') then parseDigitRun 16 rest 0 false
        else parseDigitRun 10 cs2 0 false
    | _ => parseDigitRun 10 cs2 0 false
  run.map (fun n => sign * (n : Int))

/-- Per-environment defaults of the `configs` record built inside
`getLoggingConfig`: the level fallback handed to `sanitizeLogLevel`, the
transport default, and the rotation-days default string handed to
`parseInt`. -/
structure EnvDefaults where
  levelFallback : String
  transportDefault : String
  rotationDefault : String
  deriving DecidableEq

/-- `configs[environment] || configs.development` for environment names
whose bracket lookup does not land on an inherited `Object.prototype`
member: the five own entries of the record built in `getLoggingConfig`,
with the development entry for every name whose lookup is `undefined`.
The prototype-chain case (where the fallback does not fire) is modelled
by `configsSpread` below. -/
def configsFor (environment : String) : EnvDefaults :=
  if environment = "development" then ⟨"debug", "console", "3"⟩
  else if environment = "local" then ⟨"debug", "console", "3"⟩
  else if environment = "qa" then ⟨"info", "console,file", "7"⟩
  else if environment = "staging" then ⟨"info", "console,file", "7"⟩
  else if environment = "production" then ⟨"error", "file", "14"⟩
  else ⟨"debug", "console", "3"⟩

/-- The property names every plain object literal inherits from
`Object.prototype`.  Reading any of them yields a truthy value (a
function, or for `__proto__` the prototype object itself), and none of
them exposes own enumerable properties to an object spread. -/
def objectProtoMembers : List String :=
  ["constructor", "hasOwnProperty", "isPrototypeOf", "propertyIsEnumerable",
   "toLocaleString", "toString", "valueOf", "__defineGetter__",
   "__defineSetter__", "__lookupGetter__", "__lookupSetter__", "__proto__"]

/-- What the spread `...envConfig` of
`configs[environment] || configs.development` contributes: `some`
defaults when the bracket lookup finds one of the five own entries, or
is `undefined` and falls back to the development entry; `none` when the
lookup lands on an inherited `Object.prototype` member — that value is
truthy, so the `||` fallback does not fire, and spreading it copies no
own enumerable properties, leaving `level`, `transport` and
`rotationDays` undefined in the returned configuration. -/
def configsSpread (environment : String) : Option EnvDefaults :=
  if environment = "development" then some ⟨"debug", "console", "3"⟩
  else if environment = "local" then some ⟨"debug", "console", "3"⟩
  else if environment = "qa" then some ⟨"info", "console,file", "7"⟩
  else if environment = "staging" then some ⟨"info", "console,file", "7"⟩
  else if environment = "production" then some ⟨"error", "file", "14"⟩
  else if environment ∈ objectProtoMembers then none
  else some ⟨"debug", "console", "3"⟩

/-- The resolved logger configuration (`LoggerConfig` of
`src/v1/utils/logging/types.ts`); `rotationDays` is `none` when
`parseInt` returned `NaN`. -/
structure LoggerConfig where
  service : String
  environment : String
  level : String
  transport : String
  rotationDays : Option Int
  enableRedaction : Bool
  deriving DecidableEq

/-- `getLoggingConfig` of `src/v1/config/logging.ts`, as a function of
the five environment variables it reads: `NODE_ENV`, `LOG_LEVEL`,
`LOG_TRANSPORT`, `LOG_ROTATION_DAYS`, `LOG_SERVICE_NAME` (fields in the
order service, environment, level, transport, rotationDays,
enableRedaction). -/
def getLoggingConfig (nodeEnv logLevel logTransport logRotationDays
    logServiceName : Option String) : LoggerConfig :=
  let environment := jsOrString nodeEnv "development"
  let d := configsFor environment
  ⟨jsOrString logServiceName "nodets-boilerplate",
   environment,
   sanitizeLogLevel logLevel d.levelFallback,
   jsOrString logTransport d.transportDefault,
   jsParseInt (jsOrString logRotationDays d.rotationDefault),
   true⟩

/-- The six record severities. -/
inductive Severity where
  | trace
  | debug
  | info
  | warn
  | error
  | fatal
  deriving DecidableEq

/-- Pino's numeric value of each severity, as documented in `logger.ts`:
trace=10, debug=20, info=30, warn=40, error=50, fatal=60. -/
def pinoLevelValue : Severity → Nat
  | Severity.trace => 10
  | Severity.debug => 20
  | Severity.info => 30
  | Severity.warn => 40
  | Severity.error => 50
  | Severity.fatal => 60

/-- Position in the documented ordering
trace < debug < info < warn < error < fatal. -/
def sevRank : Severity → Nat
  | Severity.trace => 0
  | Severity.debug => 1
  | Severity.info => 2
  | Severity.warn => 3
  | Severity.error => 4
  | Severity.fatal => 5

/-- A configured threshold: a severity name, or `silent` (numeric value
Infinity, which no finite severity value reaches). -/
inductive Threshold where
  | atLevel (s : Severity)
  | silent
  deriving DecidableEq

/-- The gate `levelValue >= threshold` applied per stream. -/
def emits (s : Severity) (t : Threshold) : Bool :=
  match t with
  | Threshold.atLevel l => pinoLevelValue l ≤ pinoLevelValue s
  | Threshold.silent => false

/-- Threshold named by a sanitized level string. -/
def parseThreshold : String → Option Threshold
  | "trace" => some (Threshold.atLevel Severity.trace)
  | "debug" => some (Threshold.atLevel Severity.debug)
  | "info" => some (Threshold.atLevel Severity.info)
  | "warn" => some (Threshold.atLevel Severity.warn)
  | "error" => some (Threshold.atLevel Severity.error)
  | "fatal" => some (Threshold.atLevel Severity.fatal)
  | "silent" => some Threshold.silent
  | _ => none

/-- The two sink variants built by `createLogger`. -/
inductive SinkKind where
  | console
  | file
  deriving DecidableEq

/-- One entry of the `streams` array (level string and sink kind). -/
structure StreamEntry where
  level : String
  kind : SinkKind
  deriving DecidableEq

/-- Splitting accumulator for `split(",")`. -/
def splitOnCommaAux : List Char → List Char → List String
  | [], acc => [String.mk acc.reverse]
  | c :: rest, acc =>
      if c = ',' then String.mk acc.reverse :: splitOnCommaAux rest []
      else splitOnCommaAux rest (c :: acc)

/-- JavaScript `s.split(",")` (the empty string yields `[""]`). -/
def jsSplitComma (s : String) : List String := splitOnCommaAux s.data []

/-- Stream construction in `createLogger`: split the transport string on
commas and trim each element; membership of `console`/`file`, or the
whole string being the literal `both`, enables the corresponding sink,
each stream carrying the configured level. -/
def modelStreams (cfg : LoggerConfig) : List StreamEntry :=
  let transports := (jsSplitComma cfg.transport).map (fun t => jsTrim t)
  let hasConsole := "console" ∈ transports
  let hasFile := "file" ∈ transports
  let hasBoth := cfg.transport = "both"
  (if hasConsole ∨ hasBoth then [⟨cfg.level, SinkKind.console⟩] else [])
    ++ (if hasFile ∨ hasBoth then [⟨cfg.level, SinkKind.file⟩] else [])

/-- Sinks that receive a record of severity `s`: pino gates on the
logger-level option, and multistream additionally on each stream's own
level (both are the same configured level string). -/
def emittedSinks (cfg : LoggerConfig) (s : Severity) : List SinkKind :=
  match parseThreshold cfg.level with
  | none => []
  | some t =>
      ((modelStreams cfg).filter (fun st =>
        match parseThreshold st.level with
        | some t2 => emits s t && emits s t2
        | none => false)).map (fun st => st.kind)

/-- `MILLISECONDS_PER_DAY` of `src/v1/config/common.ts` (default value,
no override). -/
def MILLISECONDS_PER_DAY : Int := 86400000

/-- Gregorian leap-year test. -/
def isLeapYear (y : Int) : Bool := (y % 4 = 0 ∧ y % 100 ≠ 0) ∨ y % 400 = 0

/-- Length of a month in the given year. -/
def daysInMonth (y m : Int) : Int :=
  if m = 1 ∨ m = 3 ∨ m = 5 ∨ m = 7 ∨ m = 8 ∨ m = 10 ∨ m = 12 then 31
  else if m = 4 ∨ m = 6 ∨ m = 9 ∨ m = 11 then 30
  else if isLeapYear y then 29 else 28

/-- Days from the Unix epoch to the civil date `y-m-d` (standard civil
calendar conversion). -/
def daysFromCivil (y m d : Int) : Int :=
  let y2 := if m ≤ 2 then y - 1 else y
  let era := Int.fdiv y2 400
  let yoe := y2 - era * 400
  let mp := if 2 < m then m - 3 else m + 9
  let doy := (153 * mp + 2) / 5 + d - 1
  let doe := yoe * 365 + yoe / 4 - yoe / 100 + doy
  era * 146097 + doe - 719468

/-- Decimal digit value. -/
def digitVal (c : Char) : Option Nat :=
  if c.isDigit then some (c.toNat - 48) else none

/-- A four-digit year `YYYY` and the remaining input. -/
def fourYear : List Char → Option (Int × List Char)
  | a :: b :: c :: d :: rest =>
      match digitVal a, digitVal b, digitVal c, digitVal d with
      | some va, some vb, some vc, some vd =>
          some (Int.ofNat (((va * 10 + vb) * 10 + vc) * 10 + vd), rest)
      | _, _, _, _ => none
  | _ => none

/-- The year part of an ES-format date: `YYYY`, or an expanded year with
a mandatory sign and exactly six digits (`-000000` is invalid). -/
def parseEsYear : List Char → Option (Int × List Char)
  | sgn :: a :: b :: c :: d :: e :: f :: rest =>
      if sgn = '+' ∨ sgn = '-' then
        match digitVal a, digitVal b, digitVal c, digitVal d,
              digitVal e, digitVal f with
        | some va, some vb, some vc, some vd, some ve, some vf =>
            let y := Int.ofNat
              (((((va * 10 + vb) * 10 + vc) * 10 + vd) * 10 + ve) * 10 + vf)
            if sgn = '-' then (if y = 0 then none else some (-y, rest))
            else some (y, rest)
        | _, _, _, _, _, _ => none
      else fourYear (sgn :: a :: b :: c :: d :: e :: f :: rest)
  | cs => fourYear cs

/-- The optional `-MM` and `-DD` parts of an ES-format date; an absent
month or day defaults to 01. -/
def parseEsMonthDay : List Char → Option (Int × Int)
  | [] => some (1, 1)
  | '-' :: m1 :: m2 :: rest =>
      match digitVal m1, digitVal m2 with
      | some vm1, some vm2 =>
          let mo := Int.ofNat (vm1 * 10 + vm2)
          match rest with
          | [] => some (mo, 1)
          | ['-', d1, d2] =>
              match digitVal d1, digitVal d2 with
              | some vd1, some vd2 => some (mo, Int.ofNat (vd1 * 10 + vd2))
              | _, _ => none
          | _ => none
      | _, _ => none
  | _ => none

/-- `Date.parse(datePart + "T00:00:00Z")`: the ES Date Time String
Format date forms `YYYY`, `YYYY-MM`, `YYYY-MM-DD` and the expanded-year
forms `±YYYYYY[-MM[-DD]]` (an absent month or day is 01), validated
against the proleptic Gregorian calendar and the ±8.64e15 ms time-value
range; anything else — including engine-specific legacy layouts outside
the specified format — is `NaN` (`none`). -/
def parseIsoDate (s : String) : Option Int :=
  match parseEsYear s.data with
  | none => none
  | some yr =>
      match parseEsMonthDay yr.2 with
      | none => none
      | some md =>
          if 1 ≤ md.1 ∧ md.1 ≤ 12 ∧ 1 ≤ md.2 ∧ md.2 ≤ daysInMonth yr.1 md.1
          then
            let ts := daysFromCivil yr.1 md.1 md.2 * MILLISECONDS_PER_DAY
            if -8640000000000000 ≤ ts ∧ ts ≤ 8640000000000000
            then some ts else none
          else none

/-- Bool prefix test on character lists. -/
def listIsPfx : List Char → List Char → Bool
  | [], _ => true
  | _ :: _, [] => false
  | a :: as, b :: bs => a == b && listIsPfx as bs

/-- `file.startsWith(pfx)`. -/
def strStarts (file pfx : String) : Bool := listIsPfx pfx.data file.data

/-- `file.endsWith(ext)`. -/
def strEnds (file ext : String) : Bool :=
  listIsPfx ext.data.reverse file.data.reverse

/-- `file.slice(pfx.length, file.length - ".log".length)`: the date
substring between the `<service>-` part and the `.log` extension. -/
def datePartOf (service : String) (file : String) : String :=
  let rest := file.data.drop (service.data.length + 1)
  String.mk (rest.take (rest.length - 4))

/-- `pruneOldLogs` of `logger.ts`, as the list of files it deletes from
the given directory listing at time `now`: nothing when retention is
`NaN` (`!keepDays`), zero or negative; otherwise every `<service>-*.log`
file whose embedded date parses to a finite timestamp preceding
`now - keepDays` days. -/
def pruneOldLogs (service : String) (keepDays : Option Int) (now : Int)
    (files : List String) : List String :=
  match keepDays with
  | none => []
  | some kd =>
      if kd ≤ 0 then []
      else
        let cutoff := now - kd * MILLISECONDS_PER_DAY
        files.filter (fun file =>
          strStarts file (service ++ "-") && strEnds file ".log" &&
            match parseIsoDate (datePartOf service file) with
            | some ts => decide (ts < cutoff)
            | none => false)

/-- Appends one element at the end of an array chain. -/
def arrSnoc : JVal → JVal → JVal
  | JVal.arrCons h rest, v => JVal.arrCons h (arrSnoc rest v)
  | _, v => JVal.arrCons v JVal.arrNil

/-- The double-quote character. -/
def quoteChar : Char := Char.ofNat 34

/-- The opening-brace character. -/
def lbraceChar : Char := Char.ofNat 123

/-- The closing-brace character. -/
def rbraceChar : Char := Char.ofNat 125

/-- JSON insignificant whitespace. -/
def jsonWs (c : Char) : Bool :=
  c == ' ' || c == '\t' || c == '\n' || c == '\r'

/-- Body of a JSON string after the opening quote: the decoded
characters and the remaining input after the closing quote. -/
def parseStrBody : List Char → Option (List Char × List Char)
  | [] => none
  | c :: rest =>
      if c = quoteChar then some ([], rest)
      else if c = '\\' then
        match rest with
        | e :: rest2 =>
            if e = quoteChar then
              (parseStrBody rest2).map (fun pr => (quoteChar :: pr.1, pr.2))
            else if e = '\\' then
              (parseStrBody rest2).map (fun pr => ('\\' :: pr.1, pr.2))
            else if e = '/' then
              (parseStrBody rest2).map (fun pr => ('/' :: pr.1, pr.2))
            else if e = 'b' then
              (parseStrBody rest2).map (fun pr => (Char.ofNat 8 :: pr.1, pr.2))
            else if e = 'f' then
              (parseStrBody rest2).map (fun pr => (Char.ofNat 12 :: pr.1, pr.2))
            else if e = 'n' then
              (parseStrBody rest2).map (fun pr => ('\n' :: pr.1, pr.2))
            else if e = 'r' then
              (parseStrBody rest2).map (fun pr => ('\r' :: pr.1, pr.2))
            else if e = 't' then
              (parseStrBody rest2).map (fun pr => ('\t' :: pr.1, pr.2))
            else if e = 'u' then
              match rest2 with
              | h1 :: h2 :: h3 :: h4 :: rest3 =>
                  match hexDigitVal h1, hexDigitVal h2,
                        hexDigitVal h3, hexDigitVal h4 with
                  | some a, some b, some c2, some d =>
                      (parseStrBody rest3).map
                        (fun pr => (Char.ofNat (((a * 16 + b) * 16 + c2) * 16 + d)
                          :: pr.1, pr.2))
                  | _, _, _, _ => none
              | _ => none
            else none
        | [] => none
      else if c.toNat < 32 then none
      else (parseStrBody rest).map (fun pr => (c :: pr.1, pr.2))

/-- Maximal decimal digit run with accumulator. -/
def takeDigits : List Char → Nat → Nat × List Char
  | [], acc => (acc, [])
  | c :: rest, acc =>
      match digitVal c with
      | some d => takeDigits rest (acc * 10 + d)
      | none => (acc, c :: rest)

/-- Skips a JSON fraction part (requires one digit after the dot). -/
def skipFrac : List Char → Option (List Char)
  | '.' :: rest =>
      match rest with
      | c :: rest2 =>
          match digitVal c with
          | some _ => some (takeDigits rest2 0).2
          | none => none
      | [] => none
  | cs => some cs

/-- Skips a JSON exponent part (optional sign, one or more digits). -/
def skipExp : List Char → Option (List Char)
  | e :: rest =>
      if e = 'e' ∨ e = 'E' then
        let rest2 := match rest with
          | c :: r => if c = '-' ∨ c = '+' then r else rest
          | [] => []
        match rest2 with
        | c :: rest3 =>
            match digitVal c with
            | some _ => some (takeDigits rest3 0).2
            | none => none
        | [] => none
      else some (e :: rest)
  | [] => some []

/-- A JSON number token: strict grammar (no leading zeros, mandatory
digits around dot/exponent); the stored value is the signed integer
part, see the `JVal` abstraction note. -/
def parseJsonNumber (cs : List Char) : Option (JVal × List Char) :=
  let sgn := match cs with
    | c :: rest => if c = '-' then (true, rest) else (false, cs)
    | [] => (false, ([] : List Char))
  match sgn.2 with
  | c :: rest =>
      match digitVal c with
      | none => none
      | some d0 =>
          if c == '0' && (match rest with
              | c2 :: _ => (digitVal c2).isSome
              | [] => false) then none
          else
            let intRun := if c = '0' then ((0 : Nat), rest) else takeDigits rest d0
            match skipFrac intRun.2 with
            | none => none
            | some rest3 =>
                match skipExp rest3 with
                | none => none
                | some rest4 =>
                    some (JVal.num (if sgn.1 then -(intRun.1 : Int) else intRun.1),
                      rest4)
  | [] => none

/-- Parser modes: a value, the inside of an object right after the brace
or after a comma-separated member, and likewise for arrays. -/
inductive PMode where
  | value
  | objFirst
  | objNext
  | arrFirst
  | arrNext
  deriving DecidableEq

/-- Fuel-indexed recursive-descent JSON reader standing for
`JSON.parse`.  The accumulator holds the object/array being built
(duplicate keys overwrite in place, as JavaScript property assignment
does).  Returns the parsed value and the remaining input. -/
def parseF : Nat → PMode → JVal → List Char → Option (JVal × List Char)
  | 0, _, _, _ => none
  | Nat.succ fuel, PMode.value, _, cs =>
      match cs.dropWhile jsonWs with
      | [] => none
      | c :: rest =>
          if c = quoteChar then
            (parseStrBody rest).map (fun pr => (JVal.str (String.mk pr.1), pr.2))
          else if c = lbraceChar then parseF fuel PMode.objFirst JVal.objNil rest
          else if c = '[' then parseF fuel PMode.arrFirst JVal.arrNil rest
          else if c = 't' then
            match rest with
            | 'r' :: 'u' :: 'e' :: rest2 => some (JVal.bool true, rest2)
            | _ => none
          else if c = 'f' then
            match rest with
            | 'a' :: 'l' :: 's' :: 'e' :: rest2 => some (JVal.bool false, rest2)
            | _ => none
          else if c = 'n' then
            match rest with
            | 'u' :: 'l' :: 'l' :: rest2 => some (JVal.null, rest2)
            | _ => none
          else parseJsonNumber (c :: rest)
  | Nat.succ fuel, PMode.objFirst, acc, cs =>
      match cs.dropWhile jsonWs with
      | [] => none
      | c :: rest =>
          if c = rbraceChar then some (acc, rest)
          else if c = quoteChar then
            match parseStrBody rest with
            | some pr =>
                match (pr.2.dropWhile jsonWs) with
                | ':' :: rest3 =>
                    match parseF fuel PMode.value JVal.null rest3 with
                    | some vr =>
                        parseF fuel PMode.objNext
                          (insertField acc (String.mk pr.1) vr.1) vr.2
                    | none => none
                | _ => none
            | none => none
          else none
  | Nat.succ fuel, PMode.objNext, acc, cs =>
      match cs.dropWhile jsonWs with
      | [] => none
      | c :: rest =>
          if c = rbraceChar then some (acc, rest)
          else if c = ',' then
            match rest.dropWhile jsonWs with
            | c2 :: rest2 =>
                if c2 = quoteChar then
                  match parseStrBody rest2 with
                  | some pr =>
                      match (pr.2.dropWhile jsonWs) with
                      | ':' :: rest3 =>
                          match parseF fuel PMode.value JVal.null rest3 with
                          | some vr =>
                              parseF fuel PMode.objNext
                                (insertField acc (String.mk pr.1) vr.1) vr.2
                          | none => none
                      | _ => none
                  | none => none
                else none
            | [] => none
          else none
  | Nat.succ fuel, PMode.arrFirst, acc, cs =>
      match cs.dropWhile jsonWs with
      | [] => none
      | c :: rest =>
          if c = ']' then some (acc, rest)
          else
            match parseF fuel PMode.value JVal.null (c :: rest) with
            | some vr => parseF fuel PMode.arrNext (arrSnoc acc vr.1) vr.2
            | none => none
  | Nat.succ fuel, PMode.arrNext, acc, cs =>
      match cs.dropWhile jsonWs with
      | [] => none
      | c :: rest =>
          if c = ']' then some (acc, rest)
          else if c = ',' then
            match parseF fuel PMode.value JVal.null rest with
            | some vr => parseF fuel PMode.arrNext (arrSnoc acc vr.1) vr.2
            | none => none
          else none

/-- `JSON.parse(data)`: parse one value and require that only whitespace
remains. -/
def jsonParse (data : String) : Option JVal :=
  match parseF (data.length + 2) PMode.value JVal.null data.data with
  | some vr => if (vr.2.dropWhile jsonWs).isEmpty then some vr.1 else none
  | none => none

/-- Lower-case hexadecimal digit character. -/
def hexChar (n : Nat) : Char :=
  if n < 10 then Char.ofNat (48 + n) else Char.ofNat (87 + n)

/-- `JSON.stringify` escaping of one string character. -/
def escapeJsonChar (c : Char) : List Char :=
  if c = quoteChar then ['\\', quoteChar]
  else if c = '\\' then ['\\', '\\']
  else if c = '\n' then ['\\', 'n']
  else if c = '\r' then ['\\', 'r']
  else if c = '\t' then ['\\', 't']
  else if c = Char.ofNat 8 then ['\\', 'b']
  else if c = Char.ofNat 12 then ['\\', 'f']
  else if c.toNat < 32 then
    ['\\', 'u', '0', '0', hexChar (c.toNat / 16), hexChar (c.toNat % 16)]
  else [c]

/-- A quoted, escaped JSON string literal. -/
def quoteJson (s : String) : String :=
  String.mk (quoteChar :: s.data.foldr (fun c acc => escapeJsonChar c ++ acc)
    [quoteChar])

/-- An indentation of `n` spaces. -/
def pad (n : Nat) : String := String.mk (List.replicate n ' ')

/-- Rendering modes: a whole value, or the remaining members/elements of
an object/array, each preceded by a comma separator. -/
inductive RMode where
  | value
  | objTail
  | arrTail
  deriving DecidableEq

/-- `JSON.stringify(v, null, 2)`: pretty JSON with two-space indent. -/
def renderJson : RMode → Nat → JVal → String
  | RMode.value, _, JVal.str s => quoteJson s
  | RMode.value, _, JVal.num n => toString n
  | RMode.value, _, JVal.bool b => cond b "true" "false"
  | RMode.value, _, JVal.null => "null"
  | RMode.value, _, JVal.objNil => "\x7b\x7d"
  | RMode.value, ind, JVal.objCons k v rest =>
      "\x7b\n" ++ pad (ind + 2) ++ quoteJson k ++ ": "
        ++ renderJson RMode.value (ind + 2) v
        ++ renderJson RMode.objTail (ind + 2) rest
        ++ "\n" ++ pad ind ++ "\x7d"
  | RMode.value, _, JVal.arrNil => "[]"
  | RMode.value, ind, JVal.arrCons h rest =>
      "[\n" ++ pad (ind + 2) ++ renderJson RMode.value (ind + 2) h
        ++ renderJson RMode.arrTail (ind + 2) rest
        ++ "\n" ++ pad ind ++ "]"
  | RMode.objTail, ind, JVal.objCons k v rest =>
      ",\n" ++ pad ind ++ quoteJson k ++ ": " ++ renderJson RMode.value ind v
        ++ renderJson RMode.objTail ind rest
  | RMode.objTail, _, _ => ""
  | RMode.arrTail, ind, JVal.arrCons h rest =>
      ",\n" ++ pad ind ++ renderJson RMode.value ind h
        ++ renderJson RMode.arrTail ind rest
  | RMode.arrTail, _, _ => ""

/-- Top-level `JSON.stringify(v, null, 2)`. -/
def stringify2 (v : JVal) : String := renderJson RMode.value 0 v

/-- JavaScript truthiness of a possibly-undefined value. -/
def jsTruthy : Option JVal → Bool
  | none => false
  | some (JVal.str s) => s != ""
  | some (JVal.num n) => n != 0
  | some (JVal.bool b) => b
  | some JVal.null => false
  | some _ => true

/-- JavaScript `a || b` on possibly-undefined values. -/
def jsOrField (a b : Option JVal) : Option JVal :=
  if jsTruthy a then a else b

/-- `String(v)` / template-literal coercion; the `Bool` selects the
array-tail mode (further elements, each preceded by a comma, with
`null` elements rendered empty, as `Array.prototype.join` does). -/
def jsValToString : Bool → JVal → String
  | false, JVal.str s => s
  | false, JVal.num n => toString n
  | false, JVal.bool b => cond b "true" "false"
  | false, JVal.null => "null"
  | false, JVal.objNil => "[object Object]"
  | false, JVal.objCons _ _ _ => "[object Object]"
  | false, JVal.arrNil => ""
  | false, JVal.arrCons h rest =>
      (match h with
       | JVal.null => ""
       | _ => jsValToString false h) ++ jsValToString true rest
  | true, JVal.arrCons h rest =>
      "," ++ (match h with
       | JVal.null => ""
       | _ => jsValToString false h) ++ jsValToString true rest
  | true, _ => ""

/-- Template-literal interpolation of a possibly-undefined value. -/
def jsTemplate : Option JVal → String
  | none => "undefined"
  | some v => jsValToString false v

/-- ASCII upper-casing (`toUpperCase` on the level labels). -/
def toUpperChar (c : Char) : Char :=
  if 'a' ≤ c ∧ c ≤ 'z' then Char.ofNat (c.toNat - 32) else c

/-- `s.toUpperCase()`. -/
def jsToUpper (s : String) : String := String.mk (s.data.map toUpperChar)

/-- `Object.keys(v).length` for a truthy value. -/
def jsKeysCount : JVal → Nat
  | JVal.objCons _ _ rest => 1 + jsKeysCount rest
  | JVal.arrCons _ rest => 1 + jsKeysCount rest
  | JVal.str s => s.length
  | _ => 0

/-- `log.level.toUpperCase()` succeeds exactly when `log.level` is a
string; any other value raises a `TypeError` that the surrounding
try/catch turns into the raw fallback. -/
def levelString (log : JVal) : Option String :=
  match lookupField log "level" with
  | some (JVal.str s) => some s
  | _ => none

/-- The record and its level string, when the input both parses and has
a string `level`; `none` selects the catch-branch fallback of either
sink. -/
def recordLevel (data : String) : Option (JVal × String) :=
  match jsonParse data with
  | some log => (levelString log).map (fun lvl => (log, lvl))
  | none => none

/-- Lines written by the file sink for a parsed record: header line,
optional `CONTEXT:` block (truthy, non-empty context), optional
`ERROR:` block (truthy error), and the separator. -/
def fileFormat (log : JVal) (lvl : String) : List String :=
  let timestamp := jsOrField (lookupField log "timestamp") (lookupField log "time")
  let message := jsOrField (lookupField log "message") (lookupField log "msg")
  let context := lookupField log "context"
  let error := lookupField log "error"
  ["\n[" ++ jsTemplate timestamp ++ "] [" ++ jsToUpper lvl ++ "] "
    ++ jsTemplate message ++ "\n"]
  ++ (match context with
      | some ctx =>
          if jsTruthy (some ctx) && decide (0 < jsKeysCount ctx)
          then ["CONTEXT: " ++ stringify2 ctx ++ "\n"] else []
      | none => [])
  ++ (match error with
      | some err =>
          if jsTruthy (some err)
          then ["ERROR: " ++ stringify2 err ++ "\n"] else []
      | none => [])
  ++ ["---\n"]

/-- The raw-fallback write of the file sink's catch branch. -/
def rawFileFallback (data : String) : String :=
  "\n[RAW LOG] " ++ data ++ "\n---\n"

/-- The file sink's `write`, as the list of strings it writes for one
input. -/
def fileStreamWrite (data : String) : List String :=
  match recordLevel data with
  | some lr => fileFormat lr.1 lr.2
  | none => [rawFileFallback data]

/-- The structured object the console sink prints
(`JSON.stringify` drops the fields that are `undefined`). -/
def consoleEntry (log : JVal) : JVal :=
  let add := fun (acc : JVal) (k : String) (v : Option JVal) =>
    match v with
    | some w => insertField acc k w
    | none => acc
  add (add (add (add (add (add (add JVal.objNil
    "timestamp" (jsOrField (lookupField log "timestamp") (lookupField log "time")))
    "level" (lookupField log "level"))
    "service" (lookupField log "service"))
    "env" (lookupField log "env"))
    "message" (jsOrField (lookupField log "message") (lookupField log "msg")))
    "context" (lookupField log "context"))
    "error" (lookupField log "error")

/-- The single console line for a parsed record. -/
def consoleFormat (log : JVal) (lvl : String) : List String :=
  ["[" ++ jsToUpper lvl ++ "] " ++ stringify2 (consoleEntry log)]

/-- The console sink's `write`, as the list of lines it logs for one
input (the catch branch prints the raw input unchanged). -/
def consoleStreamWrite (data : String) : List String :=
  match recordLevel data with
  | some lr => consoleFormat lr.1 lr.2
  | none => [data]

/-- A configuration whose transport string enables no sink. -/
def cfgNoSinkExample : LoggerConfig :=
  ⟨"svc", "qa", "info", "bogus", some 7, true⟩

/-- The resolved QA configuration with no overrides. -/
def cfgQaExample : LoggerConfig :=
  ⟨"svc", "qa", "info", "console,file", some 7, true⟩

/-- A serialized pino record (as handed to the sink `write` methods). -/
def goodInput : String :=
  "\x7b\"level\":\"info\",\"time\":\"2024-01-15T10:00:00.000Z\",\"service\":\"svc\",\"env\":\"qa\",\"context\":\x7b\"userId\":\"u1\"\x7d,\"msg\":\"hello\"\x7d"

/-- The parse of `goodInput`. -/
def goodLog : JVal :=
  JVal.objCons "level" (JVal.str "info")
    (JVal.objCons "time" (JVal.str "2024-01-15T10:00:00.000Z")
      (JVal.objCons "service" (JVal.str "svc")
        (JVal.objCons "env" (JVal.str "qa")
          (JVal.objCons "context"
            (JVal.objCons "userId" (JVal.str "u1") JVal.objNil)
            (JVal.objCons "msg" (JVal.str "hello") JVal.objNil)))))

@[simp] theorem redactPath_nil (v : JVal) : redactPath [] v = v := by
  cases v <;> rfl

@[simp] theorem redactPath_str (p : List Seg) (s : String) :
    redactPath p (JVal.str s) = JVal.str s := by
  match p with
  | [] => rfl
  | [Seg.key _] => rfl
  | [Seg.wild] => rfl
  | Seg.key _ :: _ :: _ => rfl
  | Seg.wild :: _ :: _ => rfl

@[simp] theorem redactPath_num (p : List Seg) (n : Int) :
    redactPath p (JVal.num n) = JVal.num n := by
  match p with
  | [] => rfl
  | [Seg.key _] => rfl
  | [Seg.wild] => rfl
  | Seg.key _ :: _ :: _ => rfl
  | Seg.wild :: _ :: _ => rfl

@[simp] theorem redactPath_bool (p : List Seg) (b : Bool) :
    redactPath p (JVal.bool b) = JVal.bool b := by
  match p with
  | [] => rfl
  | [Seg.key _] => rfl
  | [Seg.wild] => rfl
  | Seg.key _ :: _ :: _ => rfl
  | Seg.wild :: _ :: _ => rfl

@[simp] theorem redactPath_null (p : List Seg) :
    redactPath p JVal.null = JVal.null := by
  match p with
  | [] => rfl
  | [Seg.key _] => rfl
  | [Seg.wild] => rfl
  | Seg.key _ :: _ :: _ => rfl
  | Seg.wild :: _ :: _ => rfl

@[simp] theorem redactPath_objNil (p : List Seg) :
    redactPath p JVal.objNil = JVal.objNil := by
  match p with
  | [] => rfl
  | [Seg.key _] => rfl
  | [Seg.wild] => rfl
  | Seg.key _ :: _ :: _ => rfl
  | Seg.wild :: _ :: _ => rfl

@[simp] theorem redactPath_arrNil (p : List Seg) :
    redactPath p JVal.arrNil = JVal.arrNil := by
  match p with
  | [] => rfl
  | [Seg.key _] => rfl
  | [Seg.wild] => rfl
  | Seg.key _ :: _ :: _ => rfl
  | Seg.wild :: _ :: _ => rfl

@[simp] theorem redactPath_arrCons (p : List Seg) (h rest : JVal) :
    redactPath p (JVal.arrCons h rest) = JVal.arrCons h rest := by
  match p with
  | [] => rfl
  | [Seg.key _] => rfl
  | [Seg.wild] => rfl
  | Seg.key _ :: _ :: _ => rfl
  | Seg.wild :: _ :: _ => rfl

@[simp] theorem redactPath_censor (p : List Seg) : redactPath p censor = censor :=
  redactPath_str p _

@[simp] theorem redactPath_objCons (p : List Seg) (k : String) (v rest : JVal) :
    redactPath p (JVal.objCons k v rest)
      = JVal.objCons k (headAct p k v) (redactPath p rest) := by
  match p with
  | [] => simp [headAct]
  | [Seg.key _] => rfl
  | [Seg.wild] => rfl
  | Seg.key _ :: _ :: _ => rfl
  | Seg.wild :: _ :: _ => rfl

@[simp] theorem headAct_censor (p : List Seg) (k : String) :
    headAct p k censor = censor := by
  match p with
  | [] => rfl
  | [Seg.key kp] => simp [headAct]
  | [Seg.wild] => rfl
  | Seg.key kp :: s :: ss => simp [headAct]
  | Seg.wild :: s :: ss => simp [headAct]

/-- Applying the same redaction path twice is the same as applying it
once: a censored position already holds the censor value. -/
theorem redactPath_idem (p : List Seg) (v : JVal) :
    redactPath p (redactPath p v) = redactPath p v := by
  induction v generalizing p with
  | objCons k val rest ihv ihr =>
      simp only [redactPath_objCons, ihr]
      congr 1
      match p with
      | [] => rfl
      | [Seg.key kp] => by_cases h : k = kp <;> simp [headAct, h]
      | [Seg.wild] => simp [headAct]
      | Seg.key kp :: s :: ss =>
          by_cases h : k = kp <;> simp [headAct, h, ihv]
      | Seg.wild :: s :: ss => simp [headAct, ihv]
  | str s => simp
  | num n => simp
  | bool b => simp
  | null => simp
  | objNil => simp
  | arrNil => simp
  | arrCons h rest _ _ => simp

/-- Two redaction paths commute: every write installs the same constant
censor value, and censored subtrees are opaque to further traversal. -/
theorem redactPath_comm (p q : List Seg) (v : JVal) :
    redactPath p (redactPath q v) = redactPath q (redactPath p v) := by
  induction v generalizing p q with
  | objCons k val rest ihv ihr =>
      simp only [redactPath_objCons]
      rw [ihr p q]
      congr 1
      match p, q with
      | [], _ => simp [headAct]
      | _, [] => simp [headAct]
      | [Seg.key kp], [Seg.key kq] =>
          by_cases h1 : k = kp <;> by_cases h2 : k = kq <;>
            simp [headAct, h1, h2]
      | [Seg.key kp], [Seg.wild] =>
          by_cases h1 : k = kp <;> simp [headAct, h1]
      | [Seg.key kp], Seg.key kq :: s :: ss =>
          by_cases h1 : k = kp <;> by_cases h2 : k = kq <;>
            simp [headAct, h1, h2] <;> split_ifs <;> simp
      | [Seg.key kp], Seg.wild :: s :: ss =>
          by_cases h1 : k = kp <;> simp [headAct, h1]
      | [Seg.wild], [Seg.key kq] =>
          by_cases h2 : k = kq <;> simp [headAct, h2]
      | [Seg.wild], [Seg.wild] => simp [headAct]
      | [Seg.wild], Seg.key kq :: s :: ss =>
          by_cases h2 : k = kq <;> simp [headAct, h2]
      | [Seg.wild], Seg.wild :: s :: ss => simp [headAct]
      | Seg.key kp :: s :: ss, [Seg.key kq] =>
          by_cases h1 : k = kp <;> by_cases h2 : k = kq <;>
            simp [headAct, h1, h2] <;> split_ifs <;> simp
      | Seg.key kp :: s :: ss, [Seg.wild] =>
          by_cases h1 : k = kp <;> simp [headAct, h1]
      | Seg.key kp :: s :: ss, Seg.key kq :: t :: ts =>
          by_cases h1 : k = kp <;> by_cases h2 : k = kq <;>
            simp [headAct, h1, h2, ihv] <;> split_ifs <;> simp [ihv]
      | Seg.key kp :: s :: ss, Seg.wild :: t :: ts =>
          by_cases h1 : k = kp <;> simp [headAct, h1, ihv]
      | Seg.wild :: s :: ss, [Seg.key kq] =>
          by_cases h2 : k = kq <;> simp [headAct, h2]
      | Seg.wild :: s :: ss, [Seg.wild] => simp [headAct]
      | Seg.wild :: s :: ss, Seg.key kq :: t :: ts =>
          by_cases h2 : k = kq <;> simp [headAct, h2, ihv]
      | Seg.wild :: s :: ss, Seg.wild :: t :: ts => simp [headAct, ihv]
  | str s => simp
  | num n => simp
  | bool b => simp
  | null => simp
  | objNil => simp
  | arrNil => simp
  | arrCons h rest _ _ => simp

/-- A single path commutes past a whole list of paths. -/
theorem redactPath_redact_comm (ps : List (List Seg)) (p : List Seg) (v : JVal) :
    redactPath p (redact ps v) = redact ps (redactPath p v) := by
  induction ps generalizing v with
  | nil => rfl
  | cons q qs ih =>
      show redactPath p (redact qs (redactPath q v))
        = redact qs (redactPath q (redactPath p v))
      rw [ih, redactPath_comm]

/-- Applying a list of redaction paths twice equals applying it once. -/
theorem redact_idem (ps : List (List Seg)) (v : JVal) :
    redact ps (redact ps v) = redact ps v := by
  induction ps generalizing v with
  | nil => rfl
  | cons p qs ih =>
      show redact qs (redactPath p (redact qs (redactPath p v)))
        = redact qs (redactPath p v)
      rw [redactPath_redact_comm, ih, redactPath_idem]

@[simp] theorem lookupField_redactPath (p : List Seg) (v : JVal) (k : String) :
    lookupField (redactPath p v) k = (lookupField v k).map (headAct p k) := by
  induction v with
  | objCons k2 val rest _ ihr =>
      by_cases h : k2 = k <;> simp [lookupField, h, ihr]
  | str s => simp [lookupField]
  | num n => simp [lookupField]
  | bool b => simp [lookupField]
  | null => simp [lookupField]
  | objNil => simp [lookupField]
  | arrNil => simp [lookupField]
  | arrCons h rest _ _ => simp [lookupField]

theorem getPath_pair (v : JVal) (k1 k2 : String) :
    getPath v [k1, k2] = (lookupField v k1).bind (fun w => lookupField w k2) := by
  cases hl : lookupField v k1 with
  | none => simp [getPath, hl]
  | some w =>
      cases hu : lookupField w k2 with
      | none => simp [getPath, hl, hu]
      | some u => simp [getPath, hl, hu]

/-- A redaction path that neither is the top-level key `k1` nor the bare
terminal wildcard never deletes the record position `k1.k2`: keys are
preserved and only an ancestor-replacing write could remove it. -/
theorem getPath2_isSome_redactPath (p : List Seg) (k1 k2 : String)
    (hp1 : p ≠ [Seg.key k1]) (hp2 : p ≠ [Seg.wild]) (v : JVal)
    (h : (getPath v [k1, k2]).isSome) :
    (getPath (redactPath p v) [k1, k2]).isSome := by
  rw [getPath_pair] at h ⊢
  cases hl : lookupField v k1 with
  | none => rw [hl] at h; simp at h
  | some w =>
      rw [hl] at h
      simp only [Option.some_bind] at h
      cases hu : lookupField w k2 with
      | none => rw [hu] at h; simp at h
      | some u =>
          simp only [lookupField_redactPath, hl, Option.map_some, Option.some_bind]
          match p with
          | [] => simp [headAct, hu]
          | [Seg.key kp] =>
              have hne : k1 ≠ kp := fun e => hp1 (by rw [e])
              simp [headAct, hne, hu]
          | [Seg.wild] => exact absurd rfl hp2
          | Seg.key kp :: s :: ss =>
              by_cases he : k1 = kp <;> simp [headAct, he, hu]
          | Seg.wild :: s :: ss => simp [headAct, hu]

/-- Applying the wildcard path `*.k2` censors the position `k1.k2`
whenever it exists. -/
theorem getPath2_redactPath_wild (k1 k2 : String) (v : JVal)
    (h : (getPath v [k1, k2]).isSome) :
    getPath (redactPath [Seg.wild, Seg.key k2] v) [k1, k2] = some censor := by
  rw [getPath_pair] at h ⊢
  cases hl : lookupField v k1 with
  | none => rw [hl] at h; simp at h
  | some w =>
      rw [hl] at h
      simp only [Option.some_bind] at h
      cases hu : lookupField w k2 with
      | none => rw [hu] at h; simp at h
      | some u =>
          simp [lookupField_redactPath, hl, headAct, hu]

/-- Once the position `k1.k2` holds the censor value, any further path
that does not replace an ancestor keeps it censored. -/
theorem getPath2_censor_stable (p : List Seg) (k1 k2 : String)
    (hp1 : p ≠ [Seg.key k1]) (hp2 : p ≠ [Seg.wild]) (v : JVal)
    (h : getPath v [k1, k2] = some censor) :
    getPath (redactPath p v) [k1, k2] = some censor := by
  rw [getPath_pair] at h ⊢
  cases hl : lookupField v k1 with
  | none => rw [hl] at h; simp at h
  | some w =>
      rw [hl] at h
      simp only [Option.some_bind] at h
      simp only [lookupField_redactPath, hl, Option.map_some, Option.some_bind]
      match p with
      | [] => simpa [headAct] using h
      | [Seg.key kp] =>
          have hne : k1 ≠ kp := fun e => hp1 (by rw [e])
          simpa [headAct, hne] using h
      | [Seg.wild] => exact absurd rfl hp2
      | Seg.key kp :: s :: ss =>
          show lookupField (if k1 = kp then redactPath (s :: ss) w else w) k2
            = some censor
          by_cases he : k1 = kp <;> simp [he, h]
      | Seg.wild :: s :: ss =>
          show lookupField (redactPath (s :: ss) w) k2 = some censor
          simp [h]

/-- Censoring survives a whole list of ancestor-safe redaction paths. -/
theorem redact_censor_stable (ps : List (List Seg)) (k1 k2 : String)
    (hps : ∀ q ∈ ps, q ≠ [Seg.key k1] ∧ q ≠ [Seg.wild]) (v : JVal)
    (h : getPath v [k1, k2] = some censor) :
    getPath (redact ps v) [k1, k2] = some censor := by
  induction ps generalizing v with
  | nil => exact h
  | cons q qs ih =>
      have hq := hps q (List.mem_cons_self q qs)
      exact ih (fun r hr => hps r (List.mem_cons_of_mem q hr))
        (redactPath q v) (getPath2_censor_stable q k1 k2 hq.1 hq.2 v h)

/-- If the configured list contains the wildcard path `*.k2`, is free of
the bare wildcard, and does not censor the top-level key `k1` itself, then
redaction rewrites any existing position `k1.k2` to the censor value. -/
theorem redact_censors_wildcard (ps : List (List Seg)) (k1 k2 : String)
    (hmem : [Seg.wild, Seg.key k2] ∈ ps)
    (hps : ∀ q ∈ ps, q ≠ [Seg.key k1] ∧ q ≠ [Seg.wild]) (v : JVal)
    (h : (getPath v [k1, k2]).isSome) :
    getPath (redact ps v) [k1, k2] = some censor := by
  induction ps generalizing v with
  | nil => cases hmem
  | cons q qs ih =>
      have hq := hps q (List.mem_cons_self q qs)
      have hqs : ∀ r ∈ qs, r ≠ [Seg.key k1] ∧ r ≠ [Seg.wild] :=
        fun r hr => hps r (List.mem_cons_of_mem q hr)
      rcases List.mem_cons.mp hmem with he | hmem2
      · subst he
        exact redact_censor_stable qs k1 k2 hqs (redactPath _ v)
          (getPath2_redactPath_wild k1 k2 v h)
      · exact ih hmem2 hqs (redactPath q v)
          (getPath2_isSome_redactPath q k1 k2 hq.1 hq.2 v h)

theorem jsOrString_some (s d : String) (h : s ≠ "") :
    jsOrString (some s) d = s := by
  simp [jsOrString, h]

/-- C1 (amended): with redaction enabled, a field whose name `k2` has a
wildcard denylist pattern `*.k2` is replaced by the constant censor
token whenever it occurs as the direct child of a top-level field `k1`
that is not itself a censored top-level key; the wildcard matches
exactly one intermediate key, not arbitrary depth. -/
theorem c1_wildcard_redaction (r : JVal) (k1 k2 : String)
    (hw : [Seg.wild, Seg.key k2] ∈ redactionPaths)
    (hk : [Seg.key k1] ∉ redactionPaths)
    (hex : (getPath r [k1, k2]).isSome) :
    getPath (redactAll r) [k1, k2] = some censor := by
  refine redact_censors_wildcard redactionPaths k1 k2 hw ?_ r hex
  intro q hq
  have hnw : [Seg.wild] ∉ redactionPaths := by decide
  exact ⟨fun e => hk (e ▸ hq), fun e => hnw (e ▸ hq)⟩

/-- Witness for C1: a `password` one level below the top-level key
`ctx` is censored. -/
theorem c1_wildcard_redaction_witness :
    [Seg.wild, Seg.key "password"] ∈ redactionPaths
  ∧ [Seg.key "ctx"] ∉ redactionPaths
  ∧ getPath (redactAll (JVal.objCons "ctx"
        (JVal.objCons "password" (JVal.str "hunter2") JVal.objNil)
        JVal.objNil)) ["ctx", "password"] = some censor :=
  ⟨by decide, by decide,
    c1_wildcard_redaction _ "ctx" "password" (by decide) (by decide) (by decide)⟩

/-- Counterexample to C1 as stated: a `password` field nested three
levels deep (`data.inner.password`) matches the wildcard pattern
`*.password` by field name, yet survives redaction unchanged, because a
wildcard segment matches exactly one key level. -/
theorem c1_counterexample :
    getPath (redactAll (JVal.objCons "data"
        (JVal.objCons "inner"
          (JVal.objCons "password" (JVal.str "hunter2") JVal.objNil)
          JVal.objNil)
        JVal.objNil)) ["data", "inner", "password"] = some (JVal.str "hunter2")
  ∧ JVal.str "hunter2" ≠ censor := by
  exact ⟨by decide, by decide⟩

/-- C8: redaction is idempotent — applying the configured redaction
transformation twice yields the same record as applying it once. -/
theorem c8_redaction_idempotent (r : JVal) :
    redactAll (redactAll r) = redactAll r :=
  redact_idem redactionPaths r

/-- C3: with no environment-variable overrides, each of the five
environments resolves to exactly the documented level, transport and
retention triple, with redaction always enabled. -/
theorem c3_environment_defaults :
    getLoggingConfig (some "development") none none none none
      = ⟨"nodets-boilerplate", "development", "debug", "console", some 3, true⟩
  ∧ getLoggingConfig (some "local") none none none none
      = ⟨"nodets-boilerplate", "local", "debug", "console", some 3, true⟩
  ∧ getLoggingConfig (some "qa") none none none none
      = ⟨"nodets-boilerplate", "qa", "info", "console,file", some 7, true⟩
  ∧ getLoggingConfig (some "staging") none none none none
      = ⟨"nodets-boilerplate", "staging", "info", "console,file", some 7, true⟩
  ∧ getLoggingConfig (some "production") none none none none
      = ⟨"nodets-boilerplate", "production", "error", "file", some 14, true⟩ := by
  refine ⟨?_, ?_, ?_, ?_, ?_⟩ <;> decide

/-- C4: a level override is adopted exactly when its trimmed, lowercased
form is one of the seven allowed level names; otherwise the resolver
keeps the environment's default level and raises no error. -/
theorem c4_level_sanitization (lv fb : String) :
    (normalizeLevel lv ∈ allowedLogLevels →
      sanitizeLogLevel (some lv) fb = normalizeLevel lv)
  ∧ (normalizeLevel lv ∉ allowedLogLevels →
      sanitizeLogLevel (some lv) fb = fb
      ∧ (getLoggingConfig (some "development") (some lv) none none none).level = "debug"
      ∧ (getLoggingConfig (some "local") (some lv) none none none).level = "debug"
      ∧ (getLoggingConfig (some "qa") (some lv) none none none).level = "info"
      ∧ (getLoggingConfig (some "staging") (some lv) none none none).level = "info"
      ∧ (getLoggingConfig (some "production") (some lv) none none none).level
          = "error") := by
  have hite : (if lv = "" then "" else lv) = lv := by
    by_cases hl : lv = "" <;> simp [hl]
  constructor
  · intro h
    simp [sanitizeLogLevel, jsOrString, hite, h]
  · intro h
    refine ⟨?_, ?_, ?_, ?_, ?_, ?_⟩ <;>
      simp [getLoggingConfig, configsFor, jsOrString, sanitizeLogLevel, hite, h]

/-- Witness for C4 at the override `"file"` (the documented pitfall). -/
theorem c4_level_sanitization_witness :
    normalizeLevel "file" ∉ allowedLogLevels
  ∧ (sanitizeLogLevel (some "file") "error" = "error"
     ∧ (getLoggingConfig (some "development") (some "file") none none none).level
         = "debug"
     ∧ (getLoggingConfig (some "local") (some "file") none none none).level
         = "debug"
     ∧ (getLoggingConfig (some "qa") (some "file") none none none).level = "info"
     ∧ (getLoggingConfig (some "staging") (some "file") none none none).level
         = "info"
     ∧ (getLoggingConfig (some "production") (some "file") none none none).level
         = "error") :=
  ⟨by decide, (c4_level_sanitization "file" "error").2 (by decide)⟩

/-- C9 (amended): an unrecognized environment name that is not an
inherited `Object.prototype` member (and the absent/empty case) resolves
to the development defaults for level, transport and retention; for the
inherited member names the lookup result is truthy, the development
fallback never fires, and the spread contributes no configuration
values. -/
theorem c9_unknown_environment (env : String)
    (h1 : env ∉ ["development", "local", "qa", "staging", "production"])
    (h2 : env ∉ objectProtoMembers) :
    (configsSpread env = some ⟨"debug", "console", "3"⟩
     ∧ (getLoggingConfig (some env) none none none none).level = "debug"
     ∧ (getLoggingConfig (some env) none none none none).transport = "console"
     ∧ (getLoggingConfig (some env) none none none none).rotationDays = some 3)
  ∧ getLoggingConfig none none none none none
      = ⟨"nodets-boilerplate", "development", "debug", "console", some 3, true⟩
  ∧ ∀ p ∈ objectProtoMembers, configsSpread p = none := by
  refine ⟨?_, by decide, by decide⟩
  simp only [List.mem_cons, List.mem_singleton, not_or] at h1
  have hs : configsSpread env = some ⟨"debug", "console", "3"⟩ := by
    simp [configsSpread, h1.1, h1.2.1, h1.2.2.1, h1.2.2.2.1, h1.2.2.2.2, h2]
  by_cases he : env = ""
  · subst he
    exact ⟨hs, by decide, by decide, by decide⟩
  · have hc : configsFor env = ⟨"debug", "console", "3"⟩ := by
      simp [configsFor, h1.1, h1.2.1, h1.2.2.1, h1.2.2.2.1, h1.2.2.2.2]
    refine ⟨hs, ?_, ?_, ?_⟩ <;>
      simp [getLoggingConfig, jsOrString_some env _ he, hc] <;> decide

/-- Witness for C9 at the unrecognized, non-inherited name `"FOO"`; the
last conjunct instantiates the prototype-member half at `"toString"`. -/
theorem c9_unknown_environment_witness :
    "FOO" ∉ ["development", "local", "qa", "staging", "production"]
  ∧ "FOO" ∉ objectProtoMembers
  ∧ configsSpread "FOO" = some ⟨"debug", "console", "3"⟩
  ∧ (getLoggingConfig (some "FOO") none none none none).level = "debug"
  ∧ configsSpread "toString" = none :=
  ⟨by decide, by decide,
   (c9_unknown_environment "FOO" (by decide) (by decide)).1.1,
   (c9_unknown_environment "FOO" (by decide) (by decide)).1.2.1,
   (c9_unknown_environment "FOO" (by decide) (by decide)).2.2 "toString"
     (by decide)⟩

/-- Counterexample to C9 as stated: `NODE_ENV="toString"` is not one of
the five recognized names, yet the resolver does not produce the
development configuration values: `configs["toString"]` finds the
inherited `Object.prototype.toString` function, which is truthy, so the
`|| configs.development` fallback never fires, and spreading the
function leaves `level`, `transport` and `rotationDays` undefined
(`createLogger` would then throw on `config.transport.split`). -/
theorem c9_counterexample :
    "toString" ∉ ["development", "local", "qa", "staging", "production"]
  ∧ configsSpread "toString" = none
  ∧ configsSpread "development" = some ⟨"debug", "console", "3"⟩ := by
  exact ⟨by decide, by decide, by decide⟩

/-- C10 (amended): a nonempty rotation-days override whose leading
characters do not parse as an integer resolves `rotationDays` to `NaN`,
and the pruner invoked with `NaN` returns immediately, deleting nothing;
the empty override is falsy and instead falls back to the environment's
default retention. -/
theorem c10_nan_rotation (s : String) (envOpt : Option String)
    (h1 : s ≠ "") (h2 : jsParseInt s = none) :
    (getLoggingConfig envOpt none none (some s) none).rotationDays = none
  ∧ ∀ service now files, pruneOldLogs service none now files = [] := by
  constructor
  · simp [getLoggingConfig, jsOrString_some s _ h1, h2]
  · intro service now files
    rfl

/-- Witness for C10 at the override `"abc"` under production. -/
theorem c10_nan_rotation_witness :
    "abc" ≠ ""
  ∧ jsParseInt "abc" = none
  ∧ (getLoggingConfig (some "production") none none (some "abc") none).rotationDays
      = none
  ∧ pruneOldLogs "svc" none 1735689600000 ["svc-2020-01-01.log"] = [] :=
  ⟨by decide, by decide,
    (c10_nan_rotation "abc" (some "production") (by decide) (by decide)).1,
    (c10_nan_rotation "abc" (some "production") (by decide) (by decide)).2
      "svc" 1735689600000 ["svc-2020-01-01.log"]⟩

/-- Membership in the emitted-sink list, for a configuration whose level
parses to the threshold `t`: exactly the built sinks whose gate passes.
Every stream entry carries the configured level string, so the logger
gate and the per-stream gate coincide. -/
theorem mem_emittedSinks (cfg : LoggerConfig) (t : Threshold) (s : Severity)
    (k : SinkKind) (h : parseThreshold cfg.level = some t) :
    k ∈ emittedSinks cfg s
      ↔ (⟨cfg.level, k⟩ : StreamEntry) ∈ modelStreams cfg ∧ emits s t = true := by
  by_cases hc : (∃ e ∈ jsSplitComma cfg.transport, jsTrim e = "console")
      ∨ cfg.transport = "both"
  · by_cases hf : (∃ e ∈ jsSplitComma cfg.transport, jsTrim e = "file")
        ∨ cfg.transport = "both"
    · have hstr : modelStreams cfg
          = [⟨cfg.level, SinkKind.console⟩, ⟨cfg.level, SinkKind.file⟩] := by
        simp [modelStreams, hc, hf]
      cases hse : emits s t <;> cases k <;>
        simp [emittedSinks, hstr, h, hse, List.filter]
    · have hstr : modelStreams cfg = [⟨cfg.level, SinkKind.console⟩] := by
        simp [modelStreams, hc, hf]
      cases hse : emits s t <;> cases k <;>
        simp [emittedSinks, hstr, h, hse, List.filter]
  · by_cases hf : (∃ e ∈ jsSplitComma cfg.transport, jsTrim e = "file")
        ∨ cfg.transport = "both"
    · have hstr : modelStreams cfg = [⟨cfg.level, SinkKind.file⟩] := by
        simp [modelStreams, hc, hf]
      cases hse : emits s t <;> cases k <;>
        simp [emittedSinks, hstr, h, hse, List.filter]
    · have hstr : modelStreams cfg = [] := by
        simp [modelStreams, hc, hf]
      cases hse : emits s t <;> cases k <;>
        simp [emittedSinks, hstr, h, hse, List.filter]

/-- C5: the sink factory splits the transport string on commas with
trimming; a console (resp. file) sink exists iff some element is
`console` (resp. `file`) or the whole string is the literal `both`; with
no sink, every emit produces no output. -/
theorem c5_transport_parsing (cfg : LoggerConfig) :
    ((∃ e ∈ jsSplitComma cfg.transport, jsTrim e = "console")
        ∨ cfg.transport = "both"
      ↔ (⟨cfg.level, SinkKind.console⟩ : StreamEntry) ∈ modelStreams cfg)
  ∧ ((∃ e ∈ jsSplitComma cfg.transport, jsTrim e = "file")
        ∨ cfg.transport = "both"
      ↔ (⟨cfg.level, SinkKind.file⟩ : StreamEntry) ∈ modelStreams cfg)
  ∧ (modelStreams cfg = [] → ∀ s, emittedSinks cfg s = []) := by
  refine ⟨?_, ?_, ?_⟩
  · by_cases hc : (∃ e ∈ jsSplitComma cfg.transport, jsTrim e = "console")
        ∨ cfg.transport = "both" <;>
      by_cases hf : (∃ e ∈ jsSplitComma cfg.transport, jsTrim e = "file")
          ∨ cfg.transport = "both" <;>
        simp [modelStreams, hc, hf]
  · by_cases hc : (∃ e ∈ jsSplitComma cfg.transport, jsTrim e = "console")
        ∨ cfg.transport = "both" <;>
      by_cases hf : (∃ e ∈ jsSplitComma cfg.transport, jsTrim e = "file")
          ∨ cfg.transport = "both" <;>
        simp [modelStreams, hc, hf]
  · intro h s
    cases ht : parseThreshold cfg.level <;> simp [emittedSinks, ht, h]

/-- Witness for C5: the transport string `bogus` enables no sink and
emits reach no destination. -/
theorem c5_transport_parsing_witness :
    modelStreams cfgNoSinkExample = []
  ∧ emittedSinks cfgNoSinkExample Severity.error = [] :=
  ⟨by decide, (c5_transport_parsing cfgNoSinkExample).2.2 (by decide) Severity.error⟩

/-- C2: a sink holding threshold `t` receives a record of severity `s`
iff the sink was built and `s` is at least `t` in the ordering
trace < debug < info < warn < error < fatal; a `silent` threshold
receives nothing. -/
theorem c2_severity_threshold (cfg : LoggerConfig) (t : Threshold)
    (s l : Severity) (k : SinkKind)
    (h : parseThreshold cfg.level = some t) :
    (k ∈ emittedSinks cfg s
      ↔ (⟨cfg.level, k⟩ : StreamEntry) ∈ modelStreams cfg ∧ emits s t = true)
  ∧ (emits s (Threshold.atLevel l) = true ↔ sevRank l ≤ sevRank s)
  ∧ emits s Threshold.silent = false := by
  refine ⟨mem_emittedSinks cfg t s k h, ?_, rfl⟩
  cases s <;> cases l <;> decide

/-- Witness for C2: under the resolved QA configuration (threshold
`info`), a `warn` record reaches the console sink. -/
theorem c2_severity_threshold_witness :
    parseThreshold cfgQaExample.level = some (Threshold.atLevel Severity.info)
  ∧ ((SinkKind.console ∈ emittedSinks cfgQaExample Severity.warn
      ↔ (⟨cfgQaExample.level, SinkKind.console⟩ : StreamEntry)
          ∈ modelStreams cfgQaExample
        ∧ emits Severity.warn (Threshold.atLevel Severity.info) = true)
     ∧ (emits Severity.warn (Threshold.atLevel Severity.info) = true
        ↔ sevRank Severity.info ≤ sevRank Severity.warn)
     ∧ emits Severity.warn Threshold.silent = false) :=
  ⟨by decide,
    c2_severity_threshold cfgQaExample _ Severity.warn Severity.info
      SinkKind.console (by decide)⟩

/-- C6: with a positive retention, the pruner deletes exactly the listed
files whose name starts with the service prefix, ends in `.log`, and
whose embedded date parses to a timestamp before `now` minus `keepDays`
days; a zero, negative or `NaN` retention deletes nothing. -/
theorem c6_retention_pruning (service : String) (kd : Int) (now : Int)
    (files : List String) (file : String) :
    (0 < kd →
      (file ∈ pruneOldLogs service (some kd) now files
        ↔ file ∈ files ∧ strStarts file (service ++ "-") = true
          ∧ strEnds file ".log" = true
          ∧ ∃ ts, parseIsoDate (datePartOf service file) = some ts
              ∧ ts < now - kd * MILLISECONDS_PER_DAY))
  ∧ (kd ≤ 0 → pruneOldLogs service (some kd) now files = [])
  ∧ pruneOldLogs service none now files = [] := by
  refine ⟨?_, ?_, rfl⟩
  · intro hpos
    have hnle : ¬kd ≤ 0 := not_le.mpr hpos
    simp only [pruneOldLogs, if_neg hnle, List.mem_filter]
    cases hp : parseIsoDate (datePartOf service file) with
    | none => simp [hp]
    | some ts => simp [hp, and_assoc]
  · intro hle
    simp [pruneOldLogs, if_pos hle]

/-- Witness for C6: the spec's example — `svc-2020-01-01.log` is deleted
with 14-day retention at 2025-01-01, as is the ES month-precision name
`svc-2020-01.log` (`Date.parse` accepts `YYYY-MM`), and retention 0
deletes nothing. -/
theorem c6_retention_pruning_witness :
    (0 : Int) < 14
  ∧ "svc-2020-01-01.log"
      ∈ pruneOldLogs "svc" (some 14) 1735689600000 ["svc-2020-01-01.log"]
  ∧ "svc-2020-01.log"
      ∈ pruneOldLogs "svc" (some 14) 1735689600000 ["svc-2020-01.log"]
  ∧ pruneOldLogs "svc" (some 0) 1735689600000 ["svc-2020-01-01.log"] = [] :=
  ⟨by decide,
   ((c6_retention_pruning "svc" 14 1735689600000 ["svc-2020-01-01.log"]
      "svc-2020-01-01.log").1 (by decide)).mpr
     ⟨by decide, by decide, by decide, 1577836800000, by decide, by decide⟩,
   ((c6_retention_pruning "svc" 14 1735689600000 ["svc-2020-01.log"]
      "svc-2020-01.log").1 (by decide)).mpr
     ⟨by decide, by decide, by decide, 1577836800000, by decide, by decide⟩,
   (c6_retention_pruning "svc" 0 1735689600000 ["svc-2020-01-01.log"]
      "svc-2020-01-01.log").2.1 (by decide)⟩

/-- C7: the sink write functions are total (the try/catch never lets an
error escape); an input that fails to parse or to format makes the
console sink print the raw input unchanged and the file sink write the
raw-log marker followed by the untouched input, and a parsed record with
a string level is written formatted. -/
theorem c7_sink_write_fallback (data : String) :
    (consoleStreamWrite data ≠ [] ∧ fileStreamWrite data ≠ [])
  ∧ (recordLevel data = none →
      consoleStreamWrite data = [data]
      ∧ fileStreamWrite data = ["\n[RAW LOG] " ++ data ++ "\n---\n"])
  ∧ (∀ log lvl, recordLevel data = some (log, lvl) →
      consoleStreamWrite data = consoleFormat log lvl
      ∧ fileStreamWrite data = fileFormat log lvl) := by
  refine ⟨⟨?_, ?_⟩, ?_, ?_⟩
  · cases hr : recordLevel data <;>
      simp [consoleStreamWrite, hr, consoleFormat]
  · cases hr : recordLevel data <;>
      simp [fileStreamWrite, hr, fileFormat, rawFileFallback]
  · intro h
    simp [consoleStreamWrite, fileStreamWrite, h, rawFileFallback]
  · intro log lvl h
    simp [consoleStreamWrite, fileStreamWrite, h]

/-- Witness for C7: a non-JSON input takes both fallbacks; a well-formed
pino record is formatted. -/
theorem c7_sink_write_fallback_witness :
    recordLevel "not json" = none
  ∧ consoleStreamWrite "not json" = ["not json"]
  ∧ fileStreamWrite "not json" = ["\n[RAW LOG] " ++ "not json" ++ "\n---\n"]
  ∧ recordLevel goodInput = some (goodLog, "info")
  ∧ fileStreamWrite goodInput = fileFormat goodLog "info" :=
  ⟨by decide,
   ((c7_sink_write_fallback "not json").2.1 (by decide)).1,
   ((c7_sink_write_fallback "not json").2.1 (by decide)).2,
   by decide,
   ((c7_sink_write_fallback goodInput).2.2 goodLog "info" (by decide)).2⟩

/-- Counterexample to C10 as stated: the empty override string has no
leading characters that parse as an integer (`parseInt` of it is `NaN`),
yet the resolved `rotationDays` is the environment default 3, not `NaN`,
because the empty string is falsy and `LOG_ROTATION_DAYS || "3"` already
replaces it before `parseInt` runs. -/
theorem c10_counterexample :
    jsParseInt "" = none
  ∧ (getLoggingConfig (some "development") none none (some "") none).rotationDays
      = some 3 := by
  exact ⟨by decide, by decide⟩

end Spec2Proof
